import Mathlib

/-!
Shallow embedding of `gobfk.go`, a small Brainfuck interpreter.

The Go program keeps one mutable record (`BrainfuckProgram`) holding the
token stream, a 64 000-cell byte tape, a data pointer `DP`, a program
counter `PC` and a `Finished` flag, and advances it one instruction per
call to `Evaluate`.  Here the record is an immutable structure, a step is a
function `BrainfuckProgram → Option BrainfuckProgram`, and `none` models
the Go runtime panic raised by an out-of-range slice index.  Go `int`
values (`DP`, `PC`, scan balances) are embedded as `Int`; tape cells are
`Nat` kept below 256 by reducing modulo 256 exactly where Go's `byte`
arithmetic wraps.  The process's stdin/stdout are embedded as explicit
`Input`/`Output` lists on the state.
-/

namespace Gobfk

/-- Mirrors `type Token = byte`; the constants below mirror the Go `iota` block. -/
abbrev Token := Nat

def COMMENT : Token := 0

def RIGHT : Token := 1

def LEFT : Token := 2

def INC : Token := 3

def DEC : Token := 4

def PRINT : Token := 5

def READ : Token := 6

def LOOPL : Token := 7

def LOOPR : Token := 8

/-- Mirrors `struct BrainfuckProgram`, extended with the ambient stdin
(`Input`, a list of rune code points) and stdout (`Output`) streams that the
Go code reads and writes through `bufio`/`fmt`. -/
structure BrainfuckProgram where
  Instructions : List Token
  Tape : List Nat
  DP : Int
  PC : Int
  Finished : Bool
  Input : List Nat
  Output : List Nat
deriving DecidableEq

/-- Checked read `l[i]` at a Go `int` index: `none` models the runtime
panic on an out-of-range index. -/
def idx {α : Type} (l : List α) (i : Int) : Option α :=
  if i < 0 then none else l.get? i.toNat

/-- Checked write `l[i] = v`: `none` models the runtime panic on an
out-of-range index. -/
def setIdx {α : Type} (l : List α) (i : Int) (v : α) : Option (List α) :=
  if i < 0 ∨ l.length ≤ i.toNat then none else some (l.set i.toNat v)

/-- One case of the `switch char` inside `tokenize`. -/
def tokenOf (c : Char) : Token :=
  match c with
  | '>' => RIGHT
  | '<' => LEFT
  | '+' => INC
  | '-' => DEC
  | '.' => PRINT
  | ',' => READ
  | '[' => LOOPL
  | ']' => LOOPR
  | _ => COMMENT

/-- The `for _, char := range input { tokenized = append(tokenized, …) }`
loop of `tokenize`, with `acc` playing the role of the `tokenized` slice. -/
def tokenizeGo (acc : List Token) : List Char → List Token
  | [] => acc
  | c :: cs => tokenizeGo (acc ++ [tokenOf c]) cs

/-- Mirrors `(*BrainfuckProgram) tokenize`; Go ranges over the runes of the
source string, so the input is a list of characters. -/
def tokenize (input : List Char) : List Token :=
  tokenizeGo [] input

/-- Mirrors `CreateBrainfuckProgram`: zeroed 64 000-cell tape, both cursors
at 0, not finished, then tokenize the source. -/
def CreateBrainfuckProgram (input : List Char) : BrainfuckProgram where
  Instructions := tokenize input
  Tape := List.replicate 64000 0
  DP := 0
  PC := 0
  Finished := false
  Input := []
  Output := []

/-- The scanning loop of `closeLoop`: inspect `Instructions[PC]`, adjust the
balance (`[` increments, `]` decrements), decrement `PC`, stop once the
balance is 0.  Returns the final `PC`; `none` models the panic when the scan
indexes outside the instruction slice. -/
def closeLoopAux (ins : List Token) (pc : Int) (balance : Int) : Option Int :=
  if h : pc < 0 then none
  else
    match ins.get? pc.toNat with
    | none => none
    | some t =>
      let balance' := if t = LOOPL then balance + 1 else if t = LOOPR then balance - 1 else balance
      if balance' = 0 then some (pc - 1)
      else closeLoopAux ins (pc - 1) balance'
termination_by (pc + 1).toNat
decreasing_by
  simp_wf
  omega

/-- The scanning loop of `openLoop`: while the balance is nonzero, increment
`PC` and inspect `Instructions[PC]` (`[` increments, `]` decrements the
balance).  Returns the final `PC`; `none` models the panic when the scan
indexes outside the instruction slice. -/
def openLoopAux (ins : List Token) (pc : Int) (balance : Int) : Option Int :=
  if balance = 0 then some pc
  else if h : pc + 1 < 0 then none
  else
    match h2 : ins.get? (pc + 1).toNat with
    | none => none
    | some t =>
      openLoopAux ins (pc + 1) (if t = LOOPL then balance + 1 else if t = LOOPR then balance - 1 else balance)
termination_by ins.length - (pc + 1).toNat
decreasing_by
  simp_wf
  have hlen : (pc + 1).toNat < ins.length := by
    rcases List.get?_eq_some.mp h2 with ⟨hl, _⟩
    exact hl
  omega

/-- Mirrors `(*BrainfuckProgram) openLoop`: balance starts at 1; the scan
runs only when the current cell is 0. -/
def openLoop (bf : BrainfuckProgram) : Option BrainfuckProgram :=
  match idx bf.Tape bf.DP with
  | none => none
  | some v =>
    if v = 0 then
      match openLoopAux bf.Instructions bf.PC 1 with
      | none => none
      | some pc' => some { bf with PC := pc' }
    else some bf

/-- Mirrors `(*BrainfuckProgram) closeLoop`: balance starts at 0 and the
loop-close under the cursor is scanned first. -/
def closeLoop (bf : BrainfuckProgram) : Option BrainfuckProgram :=
  match closeLoopAux bf.Instructions bf.PC 0 with
  | none => none
  | some pc' => some { bf with PC := pc' }

/-- The `switch bf.Instructions[bf.PC]` body of `Evaluate`, given the fetched
token `t`.  `READ` models `bufio.NewReader(os.Stdin).ReadRune()` with the
error discarded: one rune is consumed when available, and a read past
end-of-input returns the rune 0 (the zero value `bufio.Reader.ReadRune`
yields alongside its error); `byte(char)` truncates the rune modulo 256. -/
def execOp (bf : BrainfuckProgram) (t : Token) : Option BrainfuckProgram :=
  if t = RIGHT then some { bf with DP := bf.DP + 1 }
  else if t = LEFT then some { bf with DP := bf.DP - 1 }
  else if t = INC then
    match idx bf.Tape bf.DP with
    | none => none
    | some v => (setIdx bf.Tape bf.DP ((v + 1) % 256)).map fun tp => { bf with Tape := tp }
  else if t = DEC then
    match idx bf.Tape bf.DP with
    | none => none
    | some v => (setIdx bf.Tape bf.DP ((v + 255) % 256)).map fun tp => { bf with Tape := tp }
  else if t = PRINT then
    match idx bf.Tape bf.DP with
    | none => none
    | some v => some { bf with Output := bf.Output ++ [v] }
  else if t = READ then
    match bf.Input with
    | [] => (setIdx bf.Tape bf.DP (0 % 256)).map fun tp => { bf with Tape := tp, Input := ([] : List Nat) }
    | c :: rest => (setIdx bf.Tape bf.DP (c % 256)).map fun tp => { bf with Tape := tp, Input := rest }
  else if t = LOOPL then openLoop bf
  else if t = LOOPR then closeLoop bf
  else some bf

/-- The shared tail of `Evaluate`: `bf.PC++` followed by
`if bf.PC >= len(bf.Instructions) { bf.Finished = true }`. -/
def advance (bf : BrainfuckProgram) : BrainfuckProgram :=
  let bf2 : BrainfuckProgram := { bf with PC := bf.PC + 1 }
  if (bf2.Instructions.length : Int) ≤ bf2.PC then { bf2 with Finished := true } else bf2

/-- Mirrors `(*BrainfuckProgram) Evaluate`: fetch `Instructions[PC]`,
dispatch, then run the shared increment and finished check. -/
def Evaluate (bf : BrainfuckProgram) : Option BrainfuckProgram :=
  match idx bf.Instructions bf.PC with
  | none => none
  | some t => (execOp bf t).map advance

/-- `n` invocations of `Evaluate`, as performed by the caller loop
`for bf.Finished != true { bf.Evaluate() }`; a step that panics aborts the
whole run. -/
def run (bf : BrainfuckProgram) : Nat → Option BrainfuckProgram
  | 0 => some bf
  | n + 1 =>
    match Evaluate bf with
    | none => none
    | some bf' => run bf' n

/-! Specification-side definitions, used to state the claims about the
bracket scans declaratively rather than through the scanning loops
themselves. -/

/-- Contribution of one token to the forward balance counter of the spec's
jump-forward description: a loop-open increments it, a loop-close decrements
it (this is also the convention of the Go variable in `openLoop`). -/
def contrib (t : Token) : Int :=
  if t = LOOPL then 1 else if t = LOOPR then -1 else 0

/-- Contribution of one token to the backward balance counter of the spec's
jump-backward description: a loop-close increments it, a loop-open
decrements it (the mirror image of the Go variable in `closeLoop`). -/
def contribBwd (t : Token) : Int :=
  if t = LOOPR then 1 else if t = LOOPL then -1 else 0

/-- Forward balance counter: `balFwd ins b0 pc j` is the counter value after
scanning the `j` tokens at positions `pc+1, …, pc+j`, starting from `b0`. -/
def balFwd (ins : List Token) (b0 : Int) (pc : Int) : Nat → Int
  | 0 => b0
  | j + 1 => balFwd ins (b0 + contrib (ins.getD (pc + 1).toNat COMMENT)) (pc + 1) j

/-- Backward balance counter in the Go convention of `closeLoop`
(loop-open `+1`, loop-close `-1`): `balBwd ins b0 pc j` is the value after
scanning the `j` tokens at positions `pc, pc-1, …, pc-j+1`. -/
def balBwd (ins : List Token) (b0 : Int) (pc : Int) : Nat → Int
  | 0 => b0
  | j + 1 => balBwd ins (b0 + contrib (ins.getD pc.toNat COMMENT)) (pc - 1) j

/-- Backward balance counter in the spec's convention (loop-close `+1`,
loop-open `-1`); it is the pointwise negation of `balBwd`. -/
def balBwdC (ins : List Token) (b0 : Int) (pc : Int) : Nat → Int
  | 0 => b0
  | j + 1 => balBwdC ins (b0 + contribBwd (ins.getD pc.toNat COMMENT)) (pc - 1) j

/-- Dyck balance check for a token sequence: every prefix has at least as
many loop-opens as loop-closes and the totals agree (the spec's
"balanced-bracket source"). -/
def balancedAux : List Token → Int → Bool
  | [], bal => bal == 0
  | t :: ts, bal =>
    let bal' := bal + contrib t
    if bal' < 0 then false else balancedAux ts bal'

/-- A token sequence has balanced brackets. -/
def balanced (ins : List Token) : Bool :=
  balancedAux ins 0

/-! Basic lemmas about the checked accessors and the tokenizer. -/

theorem idx_eq_some {α : Type} {l : List α} {i : Int} {v : α} :
    idx l i = some v ↔ 0 ≤ i ∧ l.get? i.toNat = some v := by
  unfold idx
  by_cases hi : i < 0
  · simp only [if_pos hi]
    constructor
    · intro h; exact absurd h (by simp)
    · intro h; omega
  · simp only [if_neg hi]
    constructor
    · intro h; exact ⟨by omega, h⟩
    · intro h; exact h.2

theorem idx_bounds {α : Type} {l : List α} {i : Int} {v : α} (h : idx l i = some v) :
    0 ≤ i ∧ i.toNat < l.length := by
  obtain ⟨h0, h1⟩ := idx_eq_some.mp h
  obtain ⟨hl, -⟩ := List.get?_eq_some.mp h1
  exact ⟨h0, hl⟩

theorem idx_getD {α : Type} {l : List α} {i : Int} {v d : α} (h : idx l i = some v) :
    l.getD i.toNat d = v := by
  rw [List.getD_eq_getD_get?, (idx_eq_some.mp h).2]
  rfl

theorem setIdx_some {α : Type} {l : List α} {i : Int} {v : α} (w : α)
    (h : idx l i = some v) : setIdx l i w = some (l.set i.toNat w) := by
  obtain ⟨h0, h1⟩ := idx_bounds h
  unfold setIdx
  rw [if_neg (by omega)]

theorem idx_set_self {α : Type} {l : List α} {i : Int} {v : α} (w : α)
    (h : idx l i = some v) : idx (l.set i.toNat w) i = some w := by
  obtain ⟨h0, h1⟩ := idx_bounds h
  unfold idx
  rw [if_neg (by omega)]
  exact List.get?_set_eq_of_lt w h1

theorem idx_set_ne {α : Type} {l : List α} {i k : Int} (w : α)
    (h0 : 0 ≤ i) (hik : k ≠ i) : idx (l.set i.toNat w) k = idx l k := by
  unfold idx
  by_cases hk : k < 0
  · rw [if_pos hk, if_pos hk]
  · rw [if_neg hk, if_neg hk]
    exact List.get?_set_ne w _ (by omega)

theorem tokenizeGo_eq (acc : List Token) (l : List Char) :
    tokenizeGo acc l = acc ++ l.map tokenOf := by
  induction l generalizing acc with
  | nil => simp [tokenizeGo]
  | cons c cs ih => simp [tokenizeGo, ih]

theorem tokenize_eq_map (l : List Char) : tokenize l = l.map tokenOf := by
  simp [tokenize, tokenizeGo_eq]

theorem tokenize_length (l : List Char) : (tokenize l).length = l.length := by
  simp [tokenize_eq_map]

/-! Bounds on the results of the two bracket scans, by induction on an
explicit fuel bounding the scanned range. -/

theorem closeLoopAux_bounds_fuel {ins : List Token} :
    ∀ (n : Nat) (pc b0 : Int), (pc + 1).toNat ≤ n →
      ∀ r, closeLoopAux ins pc b0 = some r → -1 ≤ r ∧ r < pc := by
  intro n
  induction n with
  | zero =>
    intro pc b0 hn r h
    rw [closeLoopAux, dif_pos (by omega)] at h
    exact absurd h (by simp)
  | succ n ih =>
    intro pc b0 hn r h
    by_cases hneg : pc < 0
    · rw [closeLoopAux, dif_pos hneg] at h
      exact absurd h (by simp)
    · rw [closeLoopAux, dif_neg hneg] at h
      cases hget : ins.get? pc.toNat with
      | none =>
        simp only [hget] at h
        exact absurd h (by simp)
      | some t =>
        simp only [hget] at h
        by_cases hz : (if t = LOOPL then b0 + 1 else if t = LOOPR then b0 - 1 else b0) = 0
        · rw [if_pos hz] at h
          have hr : r = pc - 1 := by simpa using h.symm
          omega
        · rw [if_neg hz] at h
          have := ih (pc - 1) _ (by omega) r h
          omega

theorem closeLoopAux_bounds {ins : List Token} {pc b0 r : Int}
    (h : closeLoopAux ins pc b0 = some r) : -1 ≤ r ∧ r < pc :=
  closeLoopAux_bounds_fuel (pc + 1).toNat pc b0 le_rfl r h


theorem openLoopAux_bounds_fuel {ins : List Token} :
    ∀ (n : Nat) (pc b0 : Int), ins.length - (pc + 1).toNat ≤ n → b0 ≠ 0 →
      ∀ m, openLoopAux ins pc b0 = some m →
        pc < m ∧ 0 ≤ m ∧ m.toNat < ins.length := by
  intro n
  induction n with
  | zero =>
    intro pc b0 hn hb m h
    rw [openLoopAux, if_neg hb] at h
    by_cases hneg : pc + 1 < 0
    · rw [dif_pos hneg] at h
      exact absurd h (by simp)
    · rw [dif_neg hneg] at h
      split at h
      · exact absurd h (by simp)
      · rename_i t hget
        obtain ⟨hl, -⟩ := List.get?_eq_some.mp hget
        omega
  | succ n ih =>
    intro pc b0 hn hb m h
    rw [openLoopAux, if_neg hb] at h
    by_cases hneg : pc + 1 < 0
    · rw [dif_pos hneg] at h
      exact absurd h (by simp)
    · rw [dif_neg hneg] at h
      split at h
      · exact absurd h (by simp)
      · rename_i t hget
        obtain ⟨hl, -⟩ := List.get?_eq_some.mp hget
        by_cases hz : (if t = LOOPL then b0 + 1 else if t = LOOPR then b0 - 1 else b0) = 0
        · rw [openLoopAux, if_pos hz] at h
          have hm : m = pc + 1 := by simpa using h.symm
          omega
        · have := ih (pc + 1) _ (by omega) hz m h
          omega

theorem openLoopAux_bounds {ins : List Token} {pc b0 m : Int}
    (hb : b0 ≠ 0) (h : openLoopAux ins pc b0 = some m) :
    pc < m ∧ 0 ≤ m ∧ m.toNat < ins.length :=
  openLoopAux_bounds_fuel (ins.length - (pc + 1).toNat) pc b0 le_rfl hb m h

/-! Relating the balance updates of the scanning loops to the
specification-side counters. -/

theorem balUpdate_eq (t : Token) (b : Int) :
    (if t = LOOPL then b + 1 else if t = LOOPR then b - 1 else b) = b + contrib t := by
  unfold contrib
  split_ifs <;> omega

theorem contrib_bounds (t : Token) : -1 ≤ contrib t ∧ contrib t ≤ 1 := by
  unfold contrib
  split_ifs <;> omega

theorem contrib_eq_one {t : Token} (h : contrib t = 1) : t = LOOPL := by
  by_cases h1 : t = LOOPL
  · exact h1
  · exfalso
    unfold contrib at h
    rw [if_neg h1] at h
    by_cases h2 : t = LOOPR
    · rw [if_pos h2] at h
      omega
    · rw [if_neg h2] at h
      omega

theorem contrib_eq_neg_one {t : Token} (h : contrib t = -1) : t = LOOPR := by
  by_cases h2 : t = LOOPR
  · exact h2
  · exfalso
    unfold contrib at h
    by_cases h1 : t = LOOPL
    · rw [if_pos h1] at h
      omega
    · rw [if_neg h1, if_neg h2] at h
      omega

theorem contribBwd_eq_neg (t : Token) : contribBwd t = -contrib t := by
  unfold contrib contribBwd
  split_ifs with h1 h2
  · exfalso
    subst h2
    exact absurd h1 (by decide)
  · norm_num
  · norm_num
  · norm_num

theorem balBwdC_eq_neg {ins : List Token} :
    ∀ (j : Nat) (b0 pc : Int), balBwdC ins b0 pc j = -balBwd ins (-b0) pc j := by
  intro j
  induction j with
  | zero => intro b0 pc; simp [balBwd, balBwdC]
  | succ j ih =>
    intro b0 pc
    show balBwdC ins (b0 + contribBwd (ins.getD pc.toNat COMMENT)) (pc - 1) j = _
    rw [ih]
    have harg : -(b0 + contribBwd (ins.getD pc.toNat COMMENT)) =
        -b0 + contrib (ins.getD pc.toNat COMMENT) := by
      rw [contribBwd_eq_neg]; ring
    rw [harg]
    rfl

/-! First-hitting characterization of the two bracket scans: when a scan
returns, its final position is determined by the first zero of the
corresponding balance counter, that position is in range, and it holds the
matching bracket. -/

theorem closeLoopAux_spec_fuel {ins : List Token} :
    ∀ (n : Nat) (pc b0 : Int), (pc + 1).toNat ≤ n → b0 < 0 →
      ∀ r, closeLoopAux ins pc b0 = some r →
        ∃ j : Nat, 0 < j ∧ r = pc - (j : Int) ∧ 0 ≤ pc - (j : Int) + 1 ∧
          ins.getD (pc - (j : Int) + 1).toNat COMMENT = LOOPL ∧
          balBwd ins b0 pc j = 0 ∧
          ∀ i : Nat, 0 < i → i < j → balBwd ins b0 pc i ≠ 0 := by
  intro n
  induction n with
  | zero =>
    intro pc b0 hn hb0 r h
    rw [closeLoopAux, dif_pos (by omega)] at h
    exact absurd h (by simp)
  | succ n ih =>
    intro pc b0 hn hb0 r h
    by_cases hneg : pc < 0
    · rw [closeLoopAux, dif_pos hneg] at h
      exact absurd h (by simp)
    · rw [closeLoopAux, dif_neg hneg] at h
      cases hget : ins.get? pc.toNat with
      | none =>
        simp only [hget] at h
        exact absurd h (by simp)
      | some t =>
        simp only [hget] at h
        rw [balUpdate_eq t b0] at h
        have hgetD : ins.getD pc.toNat COMMENT = t := by
          rw [List.getD_eq_getD_get?, hget]; rfl
        by_cases hz : b0 + contrib t = 0
        · rw [if_pos hz] at h
          have hr : r = pc - 1 := by simpa using h.symm
          have hcb := contrib_bounds t
          have ht : t = LOOPL := contrib_eq_one (by omega)
          refine ⟨1, Nat.one_pos, by push_cast; omega, by push_cast; omega, ?_, ?_, ?_⟩
          · have hpos : pc - ((1 : Nat) : Int) + 1 = pc := by push_cast; ring
            rw [hpos, hgetD, ht]
          · show balBwd ins (b0 + contrib (ins.getD pc.toNat COMMENT)) (pc - 1) 0 = 0
            rw [hgetD]
            exact hz
          · intro i hi0 hi1
            omega
        · rw [if_neg hz] at h
          have hcb := contrib_bounds t
          have hb1 : b0 + contrib t < 0 := by omega
          obtain ⟨j, hj0, hjr, hjpos, hjL, hjbal, hjmin⟩ :=
            ih (pc - 1) (b0 + contrib t) (by omega) hb1 r h
          refine ⟨j + 1, by omega, by push_cast; push_cast at hjr; omega, by push_cast; push_cast at hjpos; omega, ?_, ?_, ?_⟩
          · have hpos : pc - ((j + 1 : Nat) : Int) + 1 = pc - 1 - (j : Int) + 1 := by
              push_cast; ring
            rw [hpos]
            exact hjL
          · show balBwd ins (b0 + contrib (ins.getD pc.toNat COMMENT)) (pc - 1) j = 0
            rw [hgetD]
            exact hjbal
          · intro i hi0 hij
            match i with
            | i' + 1 =>
              show balBwd ins (b0 + contrib (ins.getD pc.toNat COMMENT)) (pc - 1) i' ≠ 0
              rw [hgetD]
              rcases Nat.eq_zero_or_pos i' with hi' | hi'
              · subst hi'
                exact hz
              · exact hjmin i' hi' (by omega)

theorem closeLoopAux_spec {ins : List Token} {pc b0 r : Int}
    (hb0 : b0 < 0) (h : closeLoopAux ins pc b0 = some r) :
    ∃ j : Nat, 0 < j ∧ r = pc - (j : Int) ∧ 0 ≤ pc - (j : Int) + 1 ∧
      ins.getD (pc - (j : Int) + 1).toNat COMMENT = LOOPL ∧
      balBwd ins b0 pc j = 0 ∧
      ∀ i : Nat, 0 < i → i < j → balBwd ins b0 pc i ≠ 0 :=
  closeLoopAux_spec_fuel (pc + 1).toNat pc b0 le_rfl hb0 r h

theorem openLoopAux_spec_fuel {ins : List Token} :
    ∀ (n : Nat) (pc b0 : Int), ins.length - (pc + 1).toNat ≤ n → 0 < b0 →
      ∀ m, openLoopAux ins pc b0 = some m →
        ∃ j : Nat, 0 < j ∧ m = pc + (j : Int) ∧ 0 ≤ m ∧ m.toNat < ins.length ∧
          ins.getD m.toNat COMMENT = LOOPR ∧
          balFwd ins b0 pc j = 0 ∧
          ∀ i : Nat, 0 < i → i < j → balFwd ins b0 pc i ≠ 0 := by
  intro n
  induction n with
  | zero =>
    intro pc b0 hn hb0 m h
    rw [openLoopAux, if_neg (by omega)] at h
    by_cases hneg : pc + 1 < 0
    · rw [dif_pos hneg] at h
      exact absurd h (by simp)
    · rw [dif_neg hneg] at h
      split at h
      · exact absurd h (by simp)
      · rename_i t hget
        obtain ⟨hl, -⟩ := List.get?_eq_some.mp hget
        omega
  | succ n ih =>
    intro pc b0 hn hb0 m h
    rw [openLoopAux, if_neg (by omega)] at h
    by_cases hneg : pc + 1 < 0
    · rw [dif_pos hneg] at h
      exact absurd h (by simp)
    · rw [dif_neg hneg] at h
      split at h
      · exact absurd h (by simp)
      · rename_i t hget
        obtain ⟨hl, -⟩ := List.get?_eq_some.mp hget
        rw [balUpdate_eq t b0] at h
        have hgetD : ins.getD (pc + 1).toNat COMMENT = t := by
          rw [List.getD_eq_getD_get?, hget]; rfl
        have hcb := contrib_bounds t
        by_cases hz : b0 + contrib t = 0
        · rw [openLoopAux, if_pos hz] at h
          have hm : m = pc + 1 := by simpa using h.symm
          have ht : t = LOOPR := contrib_eq_neg_one (by omega)
          refine ⟨1, Nat.one_pos, by push_cast; omega, by omega, by omega, ?_, ?_, ?_⟩
          · rw [hm, hgetD, ht]
          · show balFwd ins (b0 + contrib (ins.getD (pc + 1).toNat COMMENT)) (pc + 1) 0 = 0
            rw [hgetD]
            exact hz
          · intro i hi0 hi1
            omega
        · have hb1 : 0 < b0 + contrib t := by omega
          obtain ⟨j, hj0, hjm, hjnn, hjlt, hjR, hjbal, hjmin⟩ :=
            ih (pc + 1) (b0 + contrib t) (by omega) hb1 m h
          refine ⟨j + 1, by omega, by push_cast; push_cast at hjm; omega, hjnn, hjlt, hjR, ?_, ?_⟩
          · show balFwd ins (b0 + contrib (ins.getD (pc + 1).toNat COMMENT)) (pc + 1) j = 0
            rw [hgetD]
            exact hjbal
          · intro i hi0 hij
            match i with
            | i' + 1 =>
              show balFwd ins (b0 + contrib (ins.getD (pc + 1).toNat COMMENT)) (pc + 1) i' ≠ 0
              rw [hgetD]
              rcases Nat.eq_zero_or_pos i' with hi' | hi'
              · subst hi'
                exact hz
              · exact hjmin i' hi' (by omega)

theorem openLoopAux_spec {ins : List Token} {pc b0 m : Int}
    (hb0 : 0 < b0) (h : openLoopAux ins pc b0 = some m) :
    ∃ j : Nat, 0 < j ∧ m = pc + (j : Int) ∧ 0 ≤ m ∧ m.toNat < ins.length ∧
      ins.getD m.toNat COMMENT = LOOPR ∧
      balFwd ins b0 pc j = 0 ∧
      ∀ i : Nat, 0 < i → i < j → balFwd ins b0 pc i ≠ 0 :=
  openLoopAux_spec_fuel (ins.length - (pc + 1).toNat) pc b0 le_rfl hb0 m h

/-! Lemmas about one `Evaluate` step. -/

theorem Evaluate_eq {bf : BrainfuckProgram} {t : Token}
    (h : idx bf.Instructions bf.PC = some t) :
    Evaluate bf = (execOp bf t).map advance := by
  unfold Evaluate
  rw [h]

theorem advance_PC (bf : BrainfuckProgram) : (advance bf).PC = bf.PC + 1 := by
  unfold advance
  dsimp only
  split_ifs <;> rfl

theorem advance_Tape (bf : BrainfuckProgram) : (advance bf).Tape = bf.Tape := by
  unfold advance
  dsimp only
  split_ifs <;> rfl

theorem advance_DP (bf : BrainfuckProgram) : (advance bf).DP = bf.DP := by
  unfold advance
  dsimp only
  split_ifs <;> rfl

theorem advance_Output (bf : BrainfuckProgram) : (advance bf).Output = bf.Output := by
  unfold advance
  dsimp only
  split_ifs <;> rfl

theorem advance_Input (bf : BrainfuckProgram) : (advance bf).Input = bf.Input := by
  unfold advance
  dsimp only
  split_ifs <;> rfl

theorem advance_Instructions (bf : BrainfuckProgram) :
    (advance bf).Instructions = bf.Instructions := by
  unfold advance
  dsimp only
  split_ifs <;> rfl

theorem advance_Finished_iff (bf : BrainfuckProgram) :
    (advance bf).Finished = true ↔
      ((bf.Instructions.length : Int) ≤ bf.PC + 1 ∨ bf.Finished = true) := by
  unfold advance
  dsimp only
  split_ifs with h
  · simp [h]
  · simp [h]

theorem advance_Finished_of_lt {bf : BrainfuckProgram}
    (h : bf.PC + 1 < (bf.Instructions.length : Int)) :
    (advance bf).Finished = bf.Finished := by
  unfold advance
  dsimp only
  rw [if_neg (by omega)]

theorem execOp_LOOPL_eq (bf : BrainfuckProgram) : execOp bf LOOPL = openLoop bf := rfl

theorem execOp_LOOPR_eq (bf : BrainfuckProgram) : execOp bf LOOPR = closeLoop bf := rfl

/-- Claim C2: on a loop-open with current cell 0, the step scans forward
from the current instruction cursor with a balance counter starting at 1
(each further loop-open `+1`, each loop-close `-1`), stops the instant the
counter first reaches 0 — at the matching loop-close — and the shared
increment leaves the cursor one past that loop-close; with a nonzero cell no
scan occurs and only the shared increment happens. -/
theorem loopOpen_step_spec (bf : BrainfuckProgram) (v : Nat)
    (hfetch : idx bf.Instructions bf.PC = some LOOPL)
    (hcell : idx bf.Tape bf.DP = some v) :
    (v = 0 → ∀ bf', Evaluate bf = some bf' →
      ∃ j : Nat, 0 < j ∧
        bf'.PC = bf.PC + (j : Int) + 1 ∧
        0 ≤ bf.PC + (j : Int) ∧ (bf.PC + (j : Int)).toNat < bf.Instructions.length ∧
        bf.Instructions.getD (bf.PC + (j : Int)).toNat COMMENT = LOOPR ∧
        balFwd bf.Instructions 1 bf.PC j = 0 ∧
        (∀ i : Nat, 0 < i → i < j → balFwd bf.Instructions 1 bf.PC i ≠ 0) ∧
        bf'.Tape = bf.Tape ∧ bf'.DP = bf.DP ∧ bf'.Output = bf.Output ∧
        bf'.Instructions = bf.Instructions) ∧
    (v ≠ 0 → ∃ bf', Evaluate bf = some bf' ∧ bf'.PC = bf.PC + 1 ∧
      bf'.Tape = bf.Tape ∧ bf'.DP = bf.DP ∧ bf'.Output = bf.Output ∧
      bf'.Instructions = bf.Instructions) := by
  constructor
  · intro hv bf' hE
    subst hv
    rw [Evaluate_eq hfetch, execOp_LOOPL_eq] at hE
    unfold openLoop at hE
    simp only [hcell] at hE
    rw [if_true] at hE
    cases hsc : openLoopAux bf.Instructions bf.PC 1 with
    | none =>
      simp only [hsc] at hE
      exact absurd hE (by simp)
    | some m =>
      simp only [hsc, Option.map_some'] at hE
      have heq : advance { bf with PC := m } = bf' := Option.some.inj hE
      obtain ⟨j, hj0, hjm, hjnn, hjlt, hjR, hjbal, hjmin⟩ :=
        openLoopAux_spec (by norm_num) hsc
      refine ⟨j, hj0, ?_, by omega, ?_, ?_, hjbal, hjmin, ?_, ?_, ?_, ?_⟩
      · rw [← heq, advance_PC]
        show m + 1 = bf.PC + (j : Int) + 1
        omega
      · rw [← hjm]
        exact hjlt
      · rw [← hjm]
        exact hjR
      · rw [← heq, advance_Tape]
      · rw [← heq, advance_DP]
      · rw [← heq, advance_Output]
      · rw [← heq, advance_Instructions]
  · intro hv
    rw [Evaluate_eq hfetch, execOp_LOOPL_eq]
    unfold openLoop
    simp only [hcell]
    rw [if_neg hv]
    exact ⟨advance bf, rfl, advance_PC bf, advance_Tape bf, advance_DP bf,
      advance_Output bf, advance_Instructions bf⟩

/-- Claim C1 (amended): on a loop-close, the step always scans backward from
the current instruction cursor with a balance counter starting at 0 (in the
spec's convention each loop-close scanned adds 1 and each loop-open
subtracts 1, the loop-close under the cursor contributing first), stops the
instant the counter first returns to 0 — at the matching loop-open — and
after the shared post-step increment the cursor sits ON that loop-open
(position `PC - j + 1` for the hit after `j` scanned tokens), so the next
step re-executes the loop-open and re-tests the cell; it does not sit on the
first body instruction as the original claim stated. -/
theorem loopClose_step_spec (bf bf' : BrainfuckProgram)
    (hfetch : idx bf.Instructions bf.PC = some LOOPR)
    (hE : Evaluate bf = some bf') :
    ∃ j : Nat, 0 < j ∧
      0 ≤ bf.PC - (j : Int) + 1 ∧
      bf.Instructions.getD (bf.PC - (j : Int) + 1).toNat COMMENT = LOOPL ∧
      balBwdC bf.Instructions 0 bf.PC j = 0 ∧
      (∀ i : Nat, 0 < i → i < j → balBwdC bf.Instructions 0 bf.PC i ≠ 0) ∧
      bf'.PC = bf.PC - (j : Int) + 1 ∧
      bf'.Tape = bf.Tape ∧ bf'.DP = bf.DP ∧ bf'.Output = bf.Output ∧
      bf'.Instructions = bf.Instructions ∧ bf'.Finished = bf.Finished := by
  obtain ⟨hpc0, hpclt⟩ := idx_bounds hfetch
  have hget : bf.Instructions.get? bf.PC.toNat = some LOOPR := (idx_eq_some.mp hfetch).2
  have hgetD : bf.Instructions.getD bf.PC.toNat COMMENT = LOOPR := idx_getD hfetch
  rw [Evaluate_eq hfetch, execOp_LOOPR_eq] at hE
  unfold closeLoop at hE
  cases hsc : closeLoopAux bf.Instructions bf.PC 0 with
  | none =>
    simp only [hsc] at hE
    exact absurd hE (by simp)
  | some r =>
    simp only [hsc, Option.map_some'] at hE
    have heq : advance { bf with PC := r } = bf' := Option.some.inj hE
    rw [closeLoopAux, dif_neg (by omega)] at hsc
    simp only [hget] at hsc
    rw [if_neg (show ¬ LOOPR = LOOPL from by decide), if_true] at hsc
    norm_num at hsc
    obtain ⟨j', hj'0, hjr, hjpos, hjL, hjbal, hjmin⟩ :=
      closeLoopAux_spec (show (-1 : Int) < 0 from by norm_num) hsc
    have hcR : contrib LOOPR = -1 := by decide
    have hstep : ∀ i : Nat, balBwdC bf.Instructions 0 bf.PC (i + 1) =
        -balBwd bf.Instructions (-1) (bf.PC - 1) i := by
      intro i
      rw [balBwdC_eq_neg]
      congr 1
      show balBwd bf.Instructions
        (-0 + contrib (bf.Instructions.getD bf.PC.toNat COMMENT)) (bf.PC - 1) i = _
      rw [hgetD, hcR]
      norm_num
    refine ⟨j' + 1, by omega, by push_cast; push_cast at hjpos; omega, ?_, ?_, ?_, ?_, ?_, ?_, ?_, ?_, ?_⟩
    · have harg : bf.PC - ((j' + 1 : Nat) : Int) + 1 = (bf.PC - 1) - (j' : Int) + 1 := by
        push_cast; ring
      rw [harg]
      exact hjL
    · rw [hstep j', hjbal]
      norm_num
    · intro i hi0 hij
      match i with
      | i'' + 1 =>
        rw [hstep i'']
        rcases Nat.eq_zero_or_pos i'' with h0 | hpos
        · subst h0
          norm_num [balBwd]
        · intro hcon
          exact hjmin i'' hpos (by omega) (by omega)
    · rw [← heq, advance_PC]
      show r + 1 = bf.PC - ((j' + 1 : Nat) : Int) + 1
      push_cast
      push_cast at hjr
      omega
    · rw [← heq, advance_Tape]
    · rw [← heq, advance_DP]
    · rw [← heq, advance_Output]
    · rw [← heq, advance_Instructions]
    · rw [← heq, advance_Finished_of_lt]
      show r + 1 < (bf.Instructions.length : Int)
      push_cast at hjr
      omega

/-! Evaluation lemmas for single steps on concrete-shaped states.  The
scanning loops are defined by well-founded recursion, so concrete runs are
evaluated through these equations rather than by kernel reduction. -/

theorem idx_replicate {α : Type} {n : Nat} {a : α} {i : Int}
    (h0 : 0 ≤ i) (hn : i.toNat < n) : idx (List.replicate n a) i = some a := by
  unfold idx
  rw [if_neg (by omega)]
  rw [List.get?_eq_getElem?, List.getElem?_replicate, if_pos hn]

theorem Evaluate_INC {bf : BrainfuckProgram} {v : Nat}
    (hfetch : idx bf.Instructions bf.PC = some INC)
    (hcell : idx bf.Tape bf.DP = some v) :
    Evaluate bf = some (advance { bf with Tape := bf.Tape.set bf.DP.toNat ((v + 1) % 256) }) := by
  rw [Evaluate_eq hfetch]
  have hexec : execOp bf INC =
      some { bf with Tape := bf.Tape.set bf.DP.toNat ((v + 1) % 256) } := by
    unfold execOp
    rw [if_neg (by decide), if_neg (by decide), if_pos rfl]
    simp only [hcell]
    rw [setIdx_some _ hcell]
    rfl
  rw [hexec]
  rfl

theorem Evaluate_DEC {bf : BrainfuckProgram} {v : Nat}
    (hfetch : idx bf.Instructions bf.PC = some DEC)
    (hcell : idx bf.Tape bf.DP = some v) :
    Evaluate bf = some (advance { bf with Tape := bf.Tape.set bf.DP.toNat ((v + 255) % 256) }) := by
  rw [Evaluate_eq hfetch]
  have hexec : execOp bf DEC =
      some { bf with Tape := bf.Tape.set bf.DP.toNat ((v + 255) % 256) } := by
    unfold execOp
    rw [if_neg (by decide), if_neg (by decide), if_neg (by decide), if_pos rfl]
    simp only [hcell]
    rw [setIdx_some _ hcell]
    rfl
  rw [hexec]
  rfl

theorem Evaluate_READ_nil {bf : BrainfuckProgram} {v : Nat}
    (hfetch : idx bf.Instructions bf.PC = some READ)
    (hin : bf.Input = [])
    (hcell : idx bf.Tape bf.DP = some v) :
    Evaluate bf = some (advance
      { bf with Tape := bf.Tape.set bf.DP.toNat (0 % 256), Input := ([] : List Nat) }) := by
  rw [Evaluate_eq hfetch]
  have hexec : execOp bf READ =
      some { bf with Tape := bf.Tape.set bf.DP.toNat (0 % 256), Input := ([] : List Nat) } := by
    unfold execOp
    rw [if_neg (by decide), if_neg (by decide), if_neg (by decide), if_neg (by decide),
      if_neg (by decide), if_pos rfl]
    rw [hin]
    rw [setIdx_some _ hcell]
    rfl
  rw [hexec]
  rfl

theorem Evaluate_LOOPL_zero {bf : BrainfuckProgram} {m : Int}
    (hfetch : idx bf.Instructions bf.PC = some LOOPL)
    (hcell : idx bf.Tape bf.DP = some 0)
    (hscan : openLoopAux bf.Instructions bf.PC 1 = some m) :
    Evaluate bf = some (advance { bf with PC := m }) := by
  rw [Evaluate_eq hfetch, execOp_LOOPL_eq]
  unfold openLoop
  simp only [hcell, if_true]
  rw [hscan]
  rfl

theorem Evaluate_LOOPL_zero_fail {bf : BrainfuckProgram}
    (hfetch : idx bf.Instructions bf.PC = some LOOPL)
    (hcell : idx bf.Tape bf.DP = some 0)
    (hscan : openLoopAux bf.Instructions bf.PC 1 = none) :
    Evaluate bf = none := by
  rw [Evaluate_eq hfetch, execOp_LOOPL_eq]
  unfold openLoop
  simp only [hcell, if_true]
  rw [hscan]
  rfl

theorem Evaluate_LOOPL_nonzero {bf : BrainfuckProgram} {v : Nat}
    (hfetch : idx bf.Instructions bf.PC = some LOOPL)
    (hcell : idx bf.Tape bf.DP = some v) (hv : v ≠ 0) :
    Evaluate bf = some (advance bf) := by
  rw [Evaluate_eq hfetch, execOp_LOOPL_eq]
  unfold openLoop
  simp only [hcell]
  rw [if_neg hv]
  rfl

theorem Evaluate_LOOPR {bf : BrainfuckProgram} {r : Int}
    (hfetch : idx bf.Instructions bf.PC = some LOOPR)
    (hscan : closeLoopAux bf.Instructions bf.PC 0 = some r) :
    Evaluate bf = some (advance { bf with PC := r }) := by
  rw [Evaluate_eq hfetch, execOp_LOOPR_eq]
  unfold closeLoop
  rw [hscan]
  rfl

theorem Evaluate_LOOPR_fail {bf : BrainfuckProgram}
    (hfetch : idx bf.Instructions bf.PC = some LOOPR)
    (hscan : closeLoopAux bf.Instructions bf.PC 0 = none) :
    Evaluate bf = none := by
  rw [Evaluate_eq hfetch, execOp_LOOPR_eq]
  unfold closeLoop
  rw [hscan]
  rfl

/-! Concrete evaluations of the bracket scans on small instruction lists. -/

theorem scan_close_plusLoop : closeLoopAux [INC, LOOPL, DEC, LOOPR] 3 0 = some 0 := by
  have s1 : closeLoopAux [INC, LOOPL, DEC, LOOPR] 3 0
      = closeLoopAux [INC, LOOPL, DEC, LOOPR] 2 (-1) := by
    rw [closeLoopAux]; rfl
  have s2 : closeLoopAux [INC, LOOPL, DEC, LOOPR] 2 (-1)
      = closeLoopAux [INC, LOOPL, DEC, LOOPR] 1 (-1) := by
    rw [closeLoopAux]; rfl
  have s3 : closeLoopAux [INC, LOOPL, DEC, LOOPR] 1 (-1) = some 0 := by
    rw [closeLoopAux]; rfl
  rw [s1, s2, s3]

theorem scan_open_plusLoop : openLoopAux [INC, LOOPL, DEC, LOOPR] 1 1 = some 3 := by
  have s1 : openLoopAux [INC, LOOPL, DEC, LOOPR] 1 1
      = openLoopAux [INC, LOOPL, DEC, LOOPR] 2 1 := by
    rw [openLoopAux]; rfl
  have s2 : openLoopAux [INC, LOOPL, DEC, LOOPR] 2 1
      = openLoopAux [INC, LOOPL, DEC, LOOPR] 3 0 := by
    rw [openLoopAux]; rfl
  have s3 : openLoopAux [INC, LOOPL, DEC, LOOPR] 3 0 = some 3 := by
    rw [openLoopAux]; rfl
  rw [s1, s2, s3]

theorem scan_open_lone : openLoopAux [LOOPL] 0 1 = none := by
  rw [openLoopAux]; rfl

theorem scan_close_lone : closeLoopAux [LOOPR] 0 0 = none := by
  have s1 : closeLoopAux [LOOPR] 0 0 = closeLoopAux [LOOPR] (-1) (-1) := by
    rw [closeLoopAux]; rfl
  have s2 : closeLoopAux [LOOPR] (-1) (-1) = none := by
    rw [closeLoopAux]; rfl
  rw [s1, s2]

theorem scan_open_pair : openLoopAux [LOOPL, LOOPR] 0 1 = some 1 := by
  have s1 : openLoopAux [LOOPL, LOOPR] 0 1 = openLoopAux [LOOPL, LOOPR] 1 0 := by
    rw [openLoopAux]; rfl
  have s2 : openLoopAux [LOOPL, LOOPR] 1 0 = some 1 := by
    rw [openLoopAux]; rfl
  rw [s1, s2]

theorem scan_close_pair : closeLoopAux [LOOPL, LOOPR] 1 0 = some (-1) := by
  have s1 : closeLoopAux [LOOPL, LOOPR] 1 0 = closeLoopAux [LOOPL, LOOPR] 0 (-1) := by
    rw [closeLoopAux]; rfl
  have s2 : closeLoopAux [LOOPL, LOOPR] 0 (-1) = some (-1) := by
    rw [closeLoopAux]; rfl
  rw [s1, s2]

/-! The step-by-step trace of the program `"+[-]"` from a fresh state. -/

/-- Tape of a fresh program. -/
def TP0 : List Nat := List.replicate 64000 0

/-- Tape after `+` at cell 0. -/
def TP1 : List Nat := TP0.set 0 1

/-- Tape after the subsequent `-` at cell 0. -/
def TP2 : List Nat := TP1.set 0 0

/-- Tokens of `"+[-]"`. -/
def insPL : List Token := tokenize ['+', '[', '-', ']']

/-- State of `"+[-]"` after 1 step. -/
def PL1 : BrainfuckProgram := ⟨insPL, TP1, 0, 1, false, [], []⟩

/-- State of `"+[-]"` after 2 steps. -/
def PL2 : BrainfuckProgram := ⟨insPL, TP1, 0, 2, false, [], []⟩

/-- State of `"+[-]"` after 3 steps. -/
def PL3 : BrainfuckProgram := ⟨insPL, TP2, 0, 3, false, [], []⟩

/-- State of `"+[-]"` after 4 steps: the loop-close jump landed the cursor on
the loop-open at index 1. -/
def PL4 : BrainfuckProgram := ⟨insPL, TP2, 0, 1, false, [], []⟩

/-- State of `"+[-]"` after 5 steps: finished. -/
def PL5 : BrainfuckProgram := ⟨insPL, TP2, 0, 4, true, [], []⟩

/-- State about to execute the loop-close of `"[]"` (cursor at index 1). -/
def WCL : BrainfuckProgram := ⟨[LOOPL, LOOPR], [0], 0, 1, false, [], []⟩

/-- State after executing the loop-close of `"[]"`: cursor back on the
loop-open at index 0. -/
def WCL' : BrainfuckProgram := ⟨[LOOPL, LOOPR], [0], 0, 0, false, [], []⟩

/-- State about to execute the loop-open of `"[]"` with cell 0. -/
def WOP : BrainfuckProgram := ⟨[LOOPL, LOOPR], [0], 0, 0, false, [], []⟩

/-- State after the loop-open of `"[]"` skipped its empty body: cursor one
past the loop-close, finished. -/
def WOP' : BrainfuckProgram := ⟨[LOOPL, LOOPR], [0], 0, 2, true, [], []⟩

/-- State about to execute an input-cell instruction with exhausted input
and previous cell content 7. -/
def RD0 : BrainfuckProgram := ⟨[READ], [7], 0, 0, false, [], []⟩

/-- State about to increment a cell holding 255. -/
def W255 : BrainfuckProgram := ⟨[INC], [255], 0, 0, false, [], []⟩

/-- State of the program `"+"` after its single step: finished. -/
def WP1 : BrainfuckProgram := ⟨tokenize ['+'], TP1, 0, 1, true, [], []⟩

/-- State about to decrement a cell holding 0. -/
def W0 : BrainfuckProgram := ⟨[DEC], [0], 0, 0, false, [], []⟩

theorem cell_TP0 : idx TP0 0 = some 0 :=
  idx_replicate (by norm_num) (by norm_num)

theorem cell_TP1 : idx TP1 0 = some 1 :=
  idx_set_self 1 cell_TP0

theorem cell_TP2 : idx TP2 0 = some 0 :=
  idx_set_self 0 cell_TP1

theorem plusLoop_step1 : Evaluate (CreateBrainfuckProgram ['+', '[', '-', ']']) = some PL1 := by
  have h := @Evaluate_INC (CreateBrainfuckProgram ['+', '[', '-', ']']) 0
    (by rfl) cell_TP0
  exact h.trans (by rfl)

theorem plusLoop_step2 : Evaluate PL1 = some PL2 := by
  have h := @Evaluate_LOOPL_nonzero PL1 1 (by rfl) cell_TP1 (by norm_num)
  exact h.trans (by rfl)

theorem plusLoop_step3 : Evaluate PL2 = some PL3 := by
  have h := @Evaluate_DEC PL2 1 (by rfl) cell_TP1
  exact h.trans (by rfl)

theorem plusLoop_step4 : Evaluate PL3 = some PL4 := by
  have h := @Evaluate_LOOPR PL3 0 (by rfl) scan_close_plusLoop
  exact h.trans (by rfl)

theorem plusLoop_step5 : Evaluate PL4 = some PL5 := by
  have h := @Evaluate_LOOPL_zero PL4 3 (by rfl) cell_TP2 scan_open_plusLoop
  exact h.trans (by rfl)

theorem run_succ {bf bf' : BrainfuckProgram} (n : Nat) (h : Evaluate bf = some bf') :
    run bf (n + 1) = run bf' n := by
  show (match Evaluate bf with | none => none | some b => run b n) = run bf' n
  rw [h]

theorem plusLoop_run3 : run (CreateBrainfuckProgram ['+', '[', '-', ']']) 3 = some PL3 :=
  calc run (CreateBrainfuckProgram ['+', '[', '-', ']']) 3
      = run PL1 2 := run_succ 2 plusLoop_step1
    _ = run PL2 1 := run_succ 1 plusLoop_step2
    _ = run PL3 0 := run_succ 0 plusLoop_step3
    _ = some PL3 := rfl

theorem plusLoop_run4 : run (CreateBrainfuckProgram ['+', '[', '-', ']']) 4 = some PL4 :=
  calc run (CreateBrainfuckProgram ['+', '[', '-', ']']) 4
      = run PL1 3 := run_succ 3 plusLoop_step1
    _ = run PL2 2 := run_succ 2 plusLoop_step2
    _ = run PL3 1 := run_succ 1 plusLoop_step3
    _ = run PL4 0 := run_succ 0 plusLoop_step4
    _ = some PL4 := rfl

theorem plusLoop_run5 : run (CreateBrainfuckProgram ['+', '[', '-', ']']) 5 = some PL5 :=
  calc run (CreateBrainfuckProgram ['+', '[', '-', ']']) 5
      = run PL1 4 := run_succ 4 plusLoop_step1
    _ = run PL2 3 := run_succ 3 plusLoop_step2
    _ = run PL3 2 := run_succ 2 plusLoop_step3
    _ = run PL4 1 := run_succ 1 plusLoop_step4
    _ = run PL5 0 := run_succ 0 plusLoop_step5
    _ = some PL5 := rfl

theorem plusLoop_run1 : run (CreateBrainfuckProgram ['+', '[', '-', ']']) 1 = some PL1 :=
  calc run (CreateBrainfuckProgram ['+', '[', '-', ']']) 1
      = run PL1 0 := run_succ 0 plusLoop_step1
    _ = some PL1 := rfl

/-- Claim C1 counterexample: on `"+[-]"`, step 4 executes the loop-close at
index 3; the matching loop-open is at index 1 and the loop body starts at
index 2.  After the step (scan plus shared increment) the cursor is at 1,
the loop-open itself — not at 2, the first body instruction, as the claim's
final-position description requires. -/
theorem loopClose_claim_counterexample :
    (run (CreateBrainfuckProgram ['+', '[', '-', ']']) 3).map (fun s => s.PC) = some 3 ∧
    (CreateBrainfuckProgram ['+', '[', '-', ']']).Instructions.getD 3 COMMENT = LOOPR ∧
    (CreateBrainfuckProgram ['+', '[', '-', ']']).Instructions.getD 1 COMMENT = LOOPL ∧
    (run (CreateBrainfuckProgram ['+', '[', '-', ']']) 4).map (fun s => s.PC) = some 1 ∧
    (run (CreateBrainfuckProgram ['+', '[', '-', ']']) 4).map (fun s => s.PC) ≠ some 2 := by
  refine ⟨?_, rfl, rfl, ?_, ?_⟩
  · rw [plusLoop_run3]
    rfl
  · rw [plusLoop_run4]
    rfl
  · rw [plusLoop_run4]
    decide

/-- Claim C1 witness: on `"[]"` with the cursor on the loop-close at index 1,
the step lands the cursor on the matching loop-open at index 0 (scan of
`j = 2` tokens). -/
theorem loopClose_step_spec_witness :
    ∃ j : Nat, 0 < j ∧ 0 ≤ WCL.PC - (j : Int) + 1 ∧
      WCL.Instructions.getD (WCL.PC - (j : Int) + 1).toNat COMMENT = LOOPL ∧
      balBwdC WCL.Instructions 0 WCL.PC j = 0 ∧
      (∀ i : Nat, 0 < i → i < j → balBwdC WCL.Instructions 0 WCL.PC i ≠ 0) ∧
      WCL'.PC = WCL.PC - (j : Int) + 1 ∧
      WCL'.Tape = WCL.Tape ∧ WCL'.DP = WCL.DP ∧ WCL'.Output = WCL.Output ∧
      WCL'.Instructions = WCL.Instructions ∧ WCL'.Finished = WCL.Finished := by
  have hE : Evaluate WCL = some WCL' := by
    have h := @Evaluate_LOOPR WCL (-1) (by rfl) scan_close_pair
    exact h.trans (by rfl)
  exact loopClose_step_spec WCL WCL' rfl hE

/-- Claim C2 witness: on `"[]"` with cell 0 and the cursor on the loop-open,
the step skips to one past the matching loop-close (`j = 1`). -/
theorem loopOpen_step_spec_witness :
    ∃ j : Nat, 0 < j ∧ WOP'.PC = WOP.PC + (j : Int) + 1 ∧ 0 ≤ WOP.PC + (j : Int) ∧
      (WOP.PC + (j : Int)).toNat < WOP.Instructions.length ∧
      WOP.Instructions.getD (WOP.PC + (j : Int)).toNat COMMENT = LOOPR ∧
      balFwd WOP.Instructions 1 WOP.PC j = 0 ∧
      (∀ i : Nat, 0 < i → i < j → balFwd WOP.Instructions 1 WOP.PC i ≠ 0) ∧
      WOP'.Tape = WOP.Tape ∧ WOP'.DP = WOP.DP ∧ WOP'.Output = WOP.Output ∧
      WOP'.Instructions = WOP.Instructions := by
  have hE : Evaluate WOP = some WOP' := by
    have h := @Evaluate_LOOPL_zero WOP 1 (by rfl) (by rfl) scan_open_pair
    exact h.trans (by rfl)
  exact (loopOpen_step_spec WOP 0 rfl rfl).1 rfl WOP' hE

/-- Claim C3 counterexample: after 4 invocations of the step function on
`"+[-]"` the engine is not finished — a 5th step (the loop-open re-test that
skips out) is still executed by the driver loop, so the total step count is
not 4. -/
theorem fourStep_claim_counterexample :
    (run (CreateBrainfuckProgram ['+', '[', '-', ']']) 4).map (fun s => s.Finished)
      = some false := by
  rw [plusLoop_run4]
  rfl

/-- Claim C3 (amended): `"+[-]"` on a fresh program runs the loop body
exactly once (the cell is 1 after step 1 and 0 after step 3), the loop-open
re-test then sees 0 and skips past the matching loop-close; the engine
reaches finished with no output after exactly 5 steps (it is not yet
finished after 4). -/
theorem fourStep_amended_spec :
    (run (CreateBrainfuckProgram ['+', '[', '-', ']']) 5).map (fun s => s.Finished)
      = some true ∧
    (run (CreateBrainfuckProgram ['+', '[', '-', ']']) 5).map (fun s => s.Output)
      = some [] ∧
    (run (CreateBrainfuckProgram ['+', '[', '-', ']']) 1).bind (fun s => idx s.Tape 0)
      = some 1 ∧
    (run (CreateBrainfuckProgram ['+', '[', '-', ']']) 3).bind (fun s => idx s.Tape 0)
      = some 0 ∧
    (run (CreateBrainfuckProgram ['+', '[', '-', ']']) 5).bind (fun s => idx s.Tape 0)
      = some 0 ∧
    (run (CreateBrainfuckProgram ['+', '[', '-', ']']) 4).map (fun s => s.Finished)
      = some false := by
  refine ⟨?_, ?_, ?_, ?_, ?_, ?_⟩
  · rw [plusLoop_run5]
    rfl
  · rw [plusLoop_run5]
    rfl
  · rw [plusLoop_run1]
    exact cell_TP1
  · rw [plusLoop_run3]
    exact cell_TP2
  · rw [plusLoop_run5]
    exact cell_TP2
  · rw [plusLoop_run4]
    rfl

/-- Claim C6: executing `"["` on a fresh program (cell 0, so the skip scan
runs) makes the forward scan walk past the end of the one-element
instruction sequence and fault, and executing `"]"` makes the backward scan
walk below index 0 and fault; in the embedding the out-of-range access is
the `none` outcome, and nothing in the code catches it. -/
theorem unmatched_bracket_oob :
    openLoopAux (CreateBrainfuckProgram ['[']).Instructions 0 1 = none ∧
    Evaluate (CreateBrainfuckProgram ['[']) = none ∧
    closeLoopAux (CreateBrainfuckProgram [']']).Instructions 0 0 = none ∧
    Evaluate (CreateBrainfuckProgram [']']) = none := by
  refine ⟨scan_open_lone, ?_, scan_close_lone, ?_⟩
  · exact @Evaluate_LOOPL_zero_fail (CreateBrainfuckProgram ['[']) (by rfl)
      cell_TP0 scan_open_lone
  · exact @Evaluate_LOOPR_fail (CreateBrainfuckProgram [']']) (by rfl) scan_close_lone

/-- Claim C7 counterexample: a state about to execute an input-cell
instruction with exhausted input and previous cell content 7; after the step
the cell holds 0, not the previous content. -/
theorem read_eof_counterexample :
    idx RD0.Tape RD0.DP = some 7 ∧ RD0.Input = [] ∧
    (Evaluate RD0).bind (fun s => idx s.Tape RD0.DP) = some 0 ∧
    (Evaluate RD0).bind (fun s => idx s.Tape RD0.DP) ≠ some 7 := by
  refine ⟨rfl, rfl, ?_, ?_⟩ <;> decide

/-- Claim C7 (amended): executing an input-cell instruction with the input
channel exhausted stores 0 into the target cell (the zero rune of the failed
read), discarding — not preserving — the cell's previous content. -/
theorem read_eof_spec (bf : BrainfuckProgram) (v : Nat)
    (hfetch : idx bf.Instructions bf.PC = some READ)
    (hin : bf.Input = [])
    (hcell : idx bf.Tape bf.DP = some v) :
    ∃ bf', Evaluate bf = some bf' ∧ idx bf'.Tape bf.DP = some 0 ∧ bf'.Input = [] ∧
      bf'.DP = bf.DP ∧ bf'.PC = bf.PC + 1 := by
  rw [Evaluate_READ_nil hfetch hin hcell]
  refine ⟨_, rfl, ?_, ?_, ?_, ?_⟩
  · rw [advance_Tape]
    have h := idx_set_self (0 % 256) hcell
    simpa using h
  · rw [advance_Input]
  · rw [advance_DP]
  · rw [advance_PC]

/-- Claim C7 witness: the amended statement at the concrete state `RD0`. -/
theorem read_eof_spec_witness :
    ∃ bf', Evaluate RD0 = some bf' ∧ idx bf'.Tape RD0.DP = some 0 ∧ bf'.Input = [] ∧
      bf'.DP = RD0.DP ∧ bf'.PC = RD0.PC + 1 :=
  read_eof_spec RD0 7 rfl rfl rfl

/-- Claim C5: the tokenizer is total — one token per input character (the
output has the input's length), each character tokenized independently by
`tokenOf`, the 8 meaningful symbols map to their variants, and every other
character maps to the no-op token. -/
theorem tokenize_spec : ∀ s : List Char,
    (tokenize s).length = s.length ∧
    tokenize s = s.map tokenOf ∧
    tokenOf '>' = RIGHT ∧ tokenOf '<' = LEFT ∧ tokenOf '+' = INC ∧ tokenOf '-' = DEC ∧
    tokenOf '.' = PRINT ∧ tokenOf ',' = READ ∧ tokenOf '[' = LOOPL ∧ tokenOf ']' = LOOPR ∧
    (∀ c : Char, c ≠ '>' → c ≠ '<' → c ≠ '+' → c ≠ '-' → c ≠ '.' → c ≠ ',' →
      c ≠ '[' → c ≠ ']' → tokenOf c = COMMENT) := by
  intro s
  refine ⟨tokenize_length s, tokenize_eq_map s, rfl, rfl, rfl, rfl, rfl, rfl, rfl, rfl, ?_⟩
  intro c h1 h2 h3 h4 h5 h6 h7 h8
  unfold tokenOf
  split
  · exact absurd rfl h1
  · exact absurd rfl h2
  · exact absurd rfl h3
  · exact absurd rfl h4
  · exact absurd rfl h5
  · exact absurd rfl h6
  · exact absurd rfl h7
  · exact absurd rfl h8
  · rfl

/-- Claim C5 witness: the tokenizer facts at the concrete input `">x"`. -/
theorem tokenize_spec_witness :
    (tokenize ['>', 'x']).length = 2 ∧ tokenize ['>', 'x'] = [RIGHT, COMMENT] := by
  obtain ⟨hlen, hmap, hgt, -, -, -, -, -, -, -, hdef⟩ := tokenize_spec ['>', 'x']
  constructor
  · rw [hlen]
    rfl
  · rw [hmap]
    have hx : tokenOf 'x' = COMMENT :=
      hdef 'x' (by decide) (by decide) (by decide) (by decide) (by decide) (by decide)
        (by decide) (by decide)
    rw [List.map_cons, List.map_cons, List.map_nil, hgt, hx]

/-- Claim C8: program creation is a pure function of the source text —
equal texts give equal programs — and a fresh program has the tokenized
instructions, an all-zero tape of length 64 000, both cursors at 0, and the
finished flag cleared. -/
theorem create_pure_spec : ∀ s t : List Char, s = t →
    CreateBrainfuckProgram s = CreateBrainfuckProgram t ∧
    (CreateBrainfuckProgram s).Instructions = tokenize s ∧
    (CreateBrainfuckProgram s).Tape = List.replicate 64000 0 ∧
    (CreateBrainfuckProgram s).Tape.length = 64000 ∧
    (∀ i : Nat, i < 64000 → (CreateBrainfuckProgram s).Tape.getD i 1 = 0) ∧
    (CreateBrainfuckProgram s).DP = 0 ∧
    (CreateBrainfuckProgram s).PC = 0 ∧
    (CreateBrainfuckProgram s).Finished = false := by
  intro s t hst
  refine ⟨by rw [hst], rfl, rfl, ?_, ?_, rfl, rfl, rfl⟩
  · show (List.replicate 64000 (0 : Nat)).length = 64000
    exact List.length_replicate 64000 0
  · intro i hi
    show (List.replicate 64000 (0 : Nat)).getD i 1 = 0
    have hlen : i < (List.replicate 64000 (0 : Nat)).length := by
      rw [List.length_replicate]
      exact hi
    rw [List.getD_eq_getElem _ _ hlen]
    exact List.getElem_replicate 0 hlen

/-- Claim C8 witness: creation facts at the concrete input `"+"`. -/
theorem create_pure_witness :
    CreateBrainfuckProgram ['+'] = CreateBrainfuckProgram ['+'] ∧
    (CreateBrainfuckProgram ['+']).Tape.getD 5 1 = 0 ∧
    (CreateBrainfuckProgram ['+']).Tape.length = 64000 ∧
    (CreateBrainfuckProgram ['+']).Finished = false := by
  obtain ⟨heq, -, -, hlen, hcell, -, -, hfin⟩ := create_pure_spec ['+'] ['+'] rfl
  exact ⟨heq, hcell 5 (by norm_num), hlen, hfin⟩

/-- Claim C9: increment wraps a cell holding 255 to 0 and decrement wraps a
cell holding 0 to 255; the data cursor, the other cells, the streams and
the instructions are untouched, and the instruction cursor gets only the
shared increment. -/
theorem cell_wrap_spec (bf : BrainfuckProgram) :
    (idx bf.Instructions bf.PC = some INC → idx bf.Tape bf.DP = some 255 →
      ∃ bf', Evaluate bf = some bf' ∧ idx bf'.Tape bf.DP = some 0 ∧
        bf'.DP = bf.DP ∧ bf'.PC = bf.PC + 1 ∧ bf'.Instructions = bf.Instructions ∧
        bf'.Output = bf.Output ∧ bf'.Input = bf.Input ∧
        (∀ k : Int, k ≠ bf.DP → idx bf'.Tape k = idx bf.Tape k)) ∧
    (idx bf.Instructions bf.PC = some DEC → idx bf.Tape bf.DP = some 0 →
      ∃ bf', Evaluate bf = some bf' ∧ idx bf'.Tape bf.DP = some 255 ∧
        bf'.DP = bf.DP ∧ bf'.PC = bf.PC + 1 ∧ bf'.Instructions = bf.Instructions ∧
        bf'.Output = bf.Output ∧ bf'.Input = bf.Input ∧
        (∀ k : Int, k ≠ bf.DP → idx bf'.Tape k = idx bf.Tape k)) := by
  constructor
  · intro hfetch hcell
    rw [Evaluate_INC hfetch hcell]
    refine ⟨_, rfl, ?_, ?_, ?_, ?_, ?_, ?_, ?_⟩
    · rw [advance_Tape]
      have h := idx_set_self ((255 + 1) % 256) hcell
      simpa using h
    · rw [advance_DP]
    · rw [advance_PC]
    · rw [advance_Instructions]
    · rw [advance_Output]
    · rw [advance_Input]
    · intro k hk
      rw [advance_Tape]
      exact idx_set_ne _ (idx_bounds hcell).1 hk
  · intro hfetch hcell
    rw [Evaluate_DEC hfetch hcell]
    refine ⟨_, rfl, ?_, ?_, ?_, ?_, ?_, ?_, ?_⟩
    · rw [advance_Tape]
      have h := idx_set_self ((0 + 255) % 256) hcell
      simpa using h
    · rw [advance_DP]
    · rw [advance_PC]
    · rw [advance_Instructions]
    · rw [advance_Output]
    · rw [advance_Input]
    · intro k hk
      rw [advance_Tape]
      exact idx_set_ne _ (idx_bounds hcell).1 hk

/-- Claim C9 witness: wrap-around at concrete one-cell states holding 255
(incremented) and 0 (decremented). -/
theorem cell_wrap_witness :
    (∃ bf', Evaluate W255 = some bf' ∧ idx bf'.Tape W255.DP = some 0 ∧
      bf'.DP = W255.DP ∧ bf'.PC = W255.PC + 1 ∧ bf'.Instructions = W255.Instructions ∧
      bf'.Output = W255.Output ∧ bf'.Input = W255.Input ∧
      (∀ k : Int, k ≠ W255.DP → idx bf'.Tape k = idx W255.Tape k)) ∧
    (∃ bf', Evaluate W0 = some bf' ∧ idx bf'.Tape W0.DP = some 255 ∧
      bf'.DP = W0.DP ∧ bf'.PC = W0.PC + 1 ∧ bf'.Instructions = W0.Instructions ∧
      bf'.Output = W0.Output ∧ bf'.Input = W0.Input ∧
      (∀ k : Int, k ≠ W0.DP → idx bf'.Tape k = idx W0.Tape k)) :=
  ⟨(cell_wrap_spec W255).1 rfl rfl, (cell_wrap_spec W0).2 rfl rfl⟩

/-- Claim C10: the step function never checks the finished flag: whenever
the cursor equals the instruction count the instruction fetch is out of
range and the step faults; in particular a program created from the empty
source has no instructions yet is not finished, so its very first step
faults. -/
theorem step_unchecked_finished :
    (CreateBrainfuckProgram []).Instructions = [] ∧
    (CreateBrainfuckProgram []).Finished = false ∧
    Evaluate (CreateBrainfuckProgram []) = none ∧
    (∀ bf : BrainfuckProgram, bf.PC = (bf.Instructions.length : Int) →
      Evaluate bf = none) := by
  refine ⟨rfl, rfl, rfl, ?_⟩
  intro bf hpc
  unfold Evaluate
  have hnone : idx bf.Instructions bf.PC = none := by
    unfold idx
    rw [if_neg (by omega), List.get?_eq_none.mpr (by omega)]
  rw [hnone]

/-- Claim C10 witness: the fetch faults at cursor = length both on a
finished empty program and on an unfinished one-instruction program whose
cursor has reached the end. -/
theorem step_unchecked_finished_witness :
    Evaluate ⟨[], [], 0, 0, true, [], []⟩ = none ∧
    Evaluate ⟨[INC], [0], 0, 1, false, [], []⟩ = none :=
  ⟨step_unchecked_finished.2.2.2 _ rfl, step_unchecked_finished.2.2.2 _ rfl⟩

/-! The cursor invariant maintained by every successful step. -/

theorem execOp_some_bounds {bf : BrainfuckProgram} {t : Token} {bf1 : BrainfuckProgram}
    (h : execOp bf t = some bf1) (h0 : 0 ≤ bf.PC)
    (h1 : bf.PC.toNat < bf.Instructions.length) :
    bf1.Instructions = bf.Instructions ∧ bf1.Finished = bf.Finished ∧
      -1 ≤ bf1.PC ∧ bf1.PC < (bf.Instructions.length : Int) := by
  have hpcInt : bf.PC < (bf.Instructions.length : Int) := by omega
  unfold execOp at h
  split_ifs at h with hR hL hI hD hP hRd hLo hRc
  · obtain rfl : { bf with DP := bf.DP + 1 } = bf1 := Option.some.inj h
    exact ⟨rfl, rfl, by show -1 ≤ bf.PC; omega, hpcInt⟩
  · obtain rfl : { bf with DP := bf.DP - 1 } = bf1 := Option.some.inj h
    exact ⟨rfl, rfl, by show -1 ≤ bf.PC; omega, hpcInt⟩
  · cases hm : idx bf.Tape bf.DP with
    | none =>
      simp only [hm] at h
      exact absurd h (by simp)
    | some v =>
      simp only [hm] at h
      obtain ⟨tp, -, hbf1⟩ := Option.map_eq_some'.mp h
      obtain rfl := hbf1
      exact ⟨rfl, rfl, by show -1 ≤ bf.PC; omega, hpcInt⟩
  · cases hm : idx bf.Tape bf.DP with
    | none =>
      simp only [hm] at h
      exact absurd h (by simp)
    | some v =>
      simp only [hm] at h
      obtain ⟨tp, -, hbf1⟩ := Option.map_eq_some'.mp h
      obtain rfl := hbf1
      exact ⟨rfl, rfl, by show -1 ≤ bf.PC; omega, hpcInt⟩
  · cases hm : idx bf.Tape bf.DP with
    | none =>
      simp only [hm] at h
      exact absurd h (by simp)
    | some v =>
      simp only [hm] at h
      obtain rfl : { bf with Output := bf.Output ++ [v] } = bf1 := Option.some.inj h
      exact ⟨rfl, rfl, by show -1 ≤ bf.PC; omega, hpcInt⟩
  · cases hin : bf.Input with
    | nil =>
      simp only [hin] at h
      obtain ⟨tp, -, hbf1⟩ := Option.map_eq_some'.mp h
      obtain rfl := hbf1
      exact ⟨rfl, rfl, by show -1 ≤ bf.PC; omega, hpcInt⟩
    | cons c rest =>
      simp only [hin] at h
      obtain ⟨tp, -, hbf1⟩ := Option.map_eq_some'.mp h
      obtain rfl := hbf1
      exact ⟨rfl, rfl, by show -1 ≤ bf.PC; omega, hpcInt⟩
  · unfold openLoop at h
    cases hm : idx bf.Tape bf.DP with
    | none =>
      simp only [hm] at h
      exact absurd h (by simp)
    | some v =>
      simp only [hm] at h
      by_cases hv : v = 0
      · rw [if_pos hv] at h
        cases hsc : openLoopAux bf.Instructions bf.PC 1 with
        | none =>
          simp only [hsc] at h
          exact absurd h (by simp)
        | some m =>
          simp only [hsc] at h
          obtain rfl : { bf with PC := m } = bf1 := Option.some.inj h
          obtain ⟨-, hm0, hmlt⟩ := openLoopAux_bounds (by norm_num) hsc
          refine ⟨rfl, rfl, by show -1 ≤ m; omega, ?_⟩
          show m < (bf.Instructions.length : Int)
          omega
      · rw [if_neg hv] at h
        obtain rfl : bf = bf1 := Option.some.inj h
        exact ⟨rfl, rfl, by omega, hpcInt⟩
  · unfold closeLoop at h
    cases hsc : closeLoopAux bf.Instructions bf.PC 0 with
    | none =>
      simp only [hsc] at h
      exact absurd h (by simp)
    | some r =>
      simp only [hsc] at h
      obtain rfl : { bf with PC := r } = bf1 := Option.some.inj h
      obtain ⟨hr0, hrlt⟩ := closeLoopAux_bounds hsc
      refine ⟨rfl, rfl, by show -1 ≤ r; omega, ?_⟩
      show r < (bf.Instructions.length : Int)
      omega
  · obtain rfl : bf = bf1 := Option.some.inj h
    exact ⟨rfl, rfl, by omega, hpcInt⟩

theorem Evaluate_some_spec {bf bf' : BrainfuckProgram} (h : Evaluate bf = some bf') :
    bf'.Instructions = bf.Instructions ∧ 0 ≤ bf.PC ∧
      bf.PC.toNat < bf.Instructions.length ∧
      0 ≤ bf'.PC ∧ bf'.PC ≤ (bf.Instructions.length : Int) ∧
      (bf'.Finished = true ↔
        ((bf.Instructions.length : Int) ≤ bf'.PC ∨ bf.Finished = true)) := by
  unfold Evaluate at h
  cases hf : idx bf.Instructions bf.PC with
  | none =>
    rw [hf] at h
    exact absurd h (by simp)
  | some t =>
    rw [hf] at h
    obtain ⟨hpc0, hpclt⟩ := idx_bounds hf
    obtain ⟨bf1, hbf1, hadv⟩ := Option.map_eq_some'.mp h
    obtain ⟨hins, hfin, hlo, hhi⟩ := execOp_some_bounds hbf1 hpc0 hpclt
    subst hadv
    refine ⟨by rw [advance_Instructions, hins], hpc0, hpclt, ?_, ?_, ?_⟩
    · rw [advance_PC]
      omega
    · rw [advance_PC]
      omega
    · rw [advance_Finished_iff, advance_PC, hins, hfin]

/-- The cursor/finished invariant of a state between steps. -/
def StateInv (bf : BrainfuckProgram) : Prop :=
  0 ≤ bf.PC ∧ bf.PC ≤ (bf.Instructions.length : Int) ∧
    (bf.Finished = true ↔ (bf.Instructions.length : Int) ≤ bf.PC)

theorem Evaluate_preserves_inv {bf bf' : BrainfuckProgram}
    (hI : StateInv bf) (h : Evaluate bf = some bf') :
    bf'.Instructions = bf.Instructions ∧ StateInv bf' := by
  obtain ⟨hins, hpc0, hpclt, hlo, hhi, hfin⟩ := Evaluate_some_spec h
  obtain ⟨-, -, hIiff⟩ := hI
  have hnotfin : ¬ bf.Finished = true := by
    rw [hIiff]
    omega
  refine ⟨hins, hlo, by rw [hins]; exact hhi, ?_⟩
  rw [hins]
  rw [hfin]
  constructor
  · rintro (hc | hc)
    · exact hc
    · exact absurd hc hnotfin
  · intro hc
    exact Or.inl hc

theorem run_inv :
    ∀ (n : Nat) (s0 bf : BrainfuckProgram), StateInv s0 → run s0 n = some bf →
      bf.Instructions = s0.Instructions ∧ StateInv bf := by
  intro n
  induction n with
  | zero =>
    intro s0 bf hI h
    obtain rfl : s0 = bf := Option.some.inj h
    exact ⟨rfl, hI⟩
  | succ n ih =>
    intro s0 bf hI h
    rw [show run s0 (n + 1)
        = (match Evaluate s0 with | none => none | some b => run b n) from rfl] at h
    cases hE : Evaluate s0 with
    | none =>
      rw [hE] at h
      exact absurd h (by simp)
    | some s1 =>
      rw [hE] at h
      obtain ⟨hins1, hI1⟩ := Evaluate_preserves_inv hI hE
      obtain ⟨hins2, hI2⟩ := ih s1 bf hI1 h
      exact ⟨hins2.trans hins1, hI2⟩

/-- Claim C4 counterexample: the empty source has balanced brackets and
yields a program with no instructions that is not finished, so the driver
loop does step it — and at the moment that first step begins the cursor 0 is
not a valid index into the empty instruction sequence, and the step faults. -/
theorem cursor_invariant_counterexample :
    balanced (CreateBrainfuckProgram []).Instructions = true ∧
    (CreateBrainfuckProgram []).Finished = false ∧
    ¬ ((CreateBrainfuckProgram []).PC.toNat
        < (CreateBrainfuckProgram []).Instructions.length) ∧
    Evaluate (CreateBrainfuckProgram []) = none := by
  refine ⟨rfl, rfl, ?_, rfl⟩
  show ¬ ((0 : Int).toNat < ([] : List Token).length)
  decide

/-- Claim C4 (amended): for a program created from a NONEMPTY
balanced-bracket source and stepped only while not finished, the
instruction cursor is a valid index when a step begins (not finished implies
`0 ≤ PC < len`), after every successful step `0 ≤ PC ≤ len` with the
finished flag set exactly when `PC ≥ len`, so `PC = len` only together with
`finished = true`.  (The empty source violates the original claim.) -/
theorem cursor_invariant_spec (s : List Char) (hne : s ≠ [])
    (hbal : balanced (CreateBrainfuckProgram s).Instructions = true) :
    ∀ (n : Nat) (bf : BrainfuckProgram), run (CreateBrainfuckProgram s) n = some bf →
      bf.Instructions = (CreateBrainfuckProgram s).Instructions ∧
      0 ≤ bf.PC ∧ bf.PC ≤ (bf.Instructions.length : Int) ∧
      (bf.Finished = true ↔ (bf.Instructions.length : Int) ≤ bf.PC) ∧
      (bf.Finished = false → 0 ≤ bf.PC ∧ bf.PC < (bf.Instructions.length : Int)) := by
  have hlen : 0 < (CreateBrainfuckProgram s).Instructions.length := by
    show 0 < (tokenize s).length
    rw [tokenize_length]
    exact List.length_pos.mpr hne
  have hI0 : StateInv (CreateBrainfuckProgram s) := by
    refine ⟨le_rfl, by show (0 : Int) ≤ _; omega, ?_⟩
    show false = true ↔ ((CreateBrainfuckProgram s).Instructions.length : Int) ≤ 0
    constructor
    · intro hc
      exact absurd hc (by simp)
    · intro hc
      omega
  intro n bf h
  obtain ⟨hins, hpc0, hple, hiff⟩ := run_inv n (CreateBrainfuckProgram s) bf hI0 h
  refine ⟨hins, hpc0, hple, hiff, ?_⟩
  intro hfin
  refine ⟨hpc0, ?_⟩
  by_contra hc
  have : bf.Finished = true := hiff.mpr (by omega)
  rw [hfin] at this
  exact absurd this (by simp)

/-- Claim C4 witness: the amended invariant instantiated on `"+"` after one
step. -/
theorem cursor_invariant_spec_witness :
    ∃ bf, run (CreateBrainfuckProgram ['+']) 1 = some bf ∧
      0 ≤ bf.PC ∧ bf.PC ≤ (bf.Instructions.length : Int) ∧
      (bf.Finished = true ↔ (bf.Instructions.length : Int) ≤ bf.PC) := by
  have h1 : Evaluate (CreateBrainfuckProgram ['+']) = some WP1 := by
    have h := @Evaluate_INC (CreateBrainfuckProgram ['+']) 0 (by rfl) cell_TP0
    exact h.trans (by rfl)
  have hrun : run (CreateBrainfuckProgram ['+']) 1 = some WP1 :=
    calc run (CreateBrainfuckProgram ['+']) 1
        = run WP1 0 := run_succ 0 h1
      _ = some WP1 := rfl
  obtain ⟨-, h0, hle, hiff, -⟩ :=
    cursor_invariant_spec ['+'] (by simp) (by rfl) 1 WP1 hrun
  exact ⟨WP1, hrun, h0, hle, hiff⟩

end Gobfk
